import Mathlib

/-!
# Verification of the helm-cel validation core

This development gives a shallow embedding, in Lean 4, of the rule
macro-expansion engine (`pkg/validator/expression_processor.go`) and the
rule evaluator / diagnostics engine (`validator.go`, `pkg/models/models.go`)
of the helm-cel repository, and proves properties of the embedded code.

Modelling conventions:
* Go strings are modelled as `List Char` (`GoStr`).  The Go code indexes
  bytes; every input relevant here is ASCII, where bytes and characters
  coincide.
* The Go map `map[string]string` of named expressions is modelled as an
  association list; the code only ever looks names up, so iteration order
  is irrelevant.
* Fallible Go functions returning `(T, error)` are modelled as
  `Except GoStr T`, the error being the exact message built with
  `fmt.Errorf`.
* The CEL compiler/evaluator (`github.com/google/cel-go`), an external
  dependency, is modelled as an abstract outcome function
  `cel : GoStr → CelOutcome` passed to the evaluator; theorems quantify
  over it or constrain it pointwise.
* In-place mutation (`rules.Rules[i].Expr = ...`) is modelled by explicit
  state passing: the function returns the post-state of its argument.
-/

deriving instance DecidableEq for Except

namespace HelmCel

/-- Go strings, as lists of characters. -/
abbrev GoStr := List Char

/-- Characters treated as white space by Go's `unicode.IsSpace` in the
Latin-1 range, used by `strings.TrimSpace`. -/
def isSpaceGo (c : Char) : Bool :=
  c == ' ' || c == '\t' || c == '\n' || c == '\x0b' || c == '\x0c' ||
  c == '\r' || c == '\x85' || c == '\xa0'

/-- `strings.Contains s pat` (argument order: pattern first). -/
def containsSub (pat : GoStr) : GoStr → Bool
  | [] => pat.isEmpty
  | c :: rest => pat.isPrefixOf (c :: rest) || containsSub pat rest

/-- `strings.Replace s old new 1`: replace the first occurrence of `old`. -/
def replaceFirst (old new : GoStr) : GoStr → GoStr
  | [] => if old.isEmpty then new else []
  | c :: rest =>
    if old.isPrefixOf (c :: rest) then new ++ (c :: rest).drop old.length
    else c :: replaceFirst old new rest

/-- Fuelled worker for `replaceAll`; the fuel equals the length of the
string being scanned, so the zero-fuel branch is only reached on the empty
string, where it agrees with the nil branch. -/
def replAllF (old new : GoStr) : Nat → GoStr → GoStr
  | _, [] => []
  | 0, s => s
  | fuel + 1, c :: rest =>
    if old ≠ [] ∧ old.isPrefixOf (c :: rest) then
      new ++ replAllF old new fuel (rest.drop (old.length - 1))
    else
      c :: replAllF old new fuel rest

/-- `strings.ReplaceAll s old new`.  The source only calls it with
non-empty `old` (a positional placeholder), which the definition assumes. -/
def replaceAll (old new s : GoStr) : GoStr :=
  replAllF old new s.length s

/-- Fuelled worker for `splitGo`; fuel is the scanned string's length. -/
def splitGoF (sep : GoStr) : Nat → GoStr → List GoStr
  | _, [] => [[]]
  | 0, s => [s]
  | fuel + 1, c :: rest =>
    if sep ≠ [] ∧ sep.isPrefixOf (c :: rest) then
      [] :: splitGoF sep fuel (rest.drop (sep.length - 1))
    else
      match splitGoF sep fuel rest with
      | [] => [[c]]
      | p :: ps => (c :: p) :: ps

/-- `strings.Split s sep` for the non-empty separators used by the source
(`"values."`, `" "`, `"."`). -/
def splitGo (sep s : GoStr) : List GoStr :=
  splitGoF sep s.length s

/-- `strings.TrimPrefix s pre`. -/
def trimPrefixGo (pre s : GoStr) : GoStr :=
  if pre.isPrefixOf s then s.drop pre.length else s

/-- `strings.TrimSuffix s suf`. -/
def trimSuffixGo (suf s : GoStr) : GoStr :=
  if suf.isSuffixOf s then s.take (s.length - suf.length) else s

/-- `strings.TrimSpace`. -/
def trimSpaceGo (s : GoStr) : GoStr :=
  ((s.dropWhile isSpaceGo).reverse.dropWhile isSpaceGo).reverse

/-- `strings.Trim s cutset`: strip leading and trailing characters that
occur in `cutset`. -/
def goTrim (cutset s : GoStr) : GoStr :=
  ((s.dropWhile cutset.contains).reverse.dropWhile cutset.contains).reverse

/-- The text after the first occurrence of `pat` (`strings.Index` plus
slicing), `none` when `pat` does not occur.  Call sites use non-empty
patterns. -/
def afterSub (pat : GoStr) : GoStr → Option GoStr
  | [] => if pat.isEmpty then some [] else none
  | c :: rest =>
    if pat.isPrefixOf (c :: rest) then some ((c :: rest).drop pat.length)
    else afterSub pat rest

/-- Name characters of a reference: `_`, letters, digits
(`findExpressionReferences`). -/
def isNameChar (c : Char) : Bool :=
  c == '_' || ('a' ≤ c && c ≤ 'z') || ('A' ≤ c && c ≤ 'Z') ||
  ('0' ≤ c && c ≤ '9')

/-- One `$\x7bname\x7d` / `$\x7bname(args)\x7d` occurrence found by the
scanner (`expressionMatch` in the source).  `args` is the raw argument
text including its outer parentheses, or `[]` when absent. -/
structure ExprMatch where
  fullMatch : GoStr
  name : GoStr
  args : GoStr
deriving DecidableEq

/-- The balanced-parenthesis scan inside `findExpressionReferences`:
starting at an opening parenthesis with the given depth, consume up to and
including the parenthesis that brings the depth back to zero, returning
the consumed text and the rest; `none` when the input ends first (the Go
loop then runs off the end of the expression with no argument text
captured). -/
def scanBal : Int → GoStr → Option (GoStr × GoStr)
  | _, [] => none
  | depth, c :: rest =>
    if c == ')' then
      if depth - 1 = 0 then some ([c], rest)
      else
        match scanBal (depth - 1) rest with
        | none => none
        | some (a, r) => some (c :: a, r)
    else
      match scanBal (if c == '(' then depth + 1 else depth) rest with
      | none => none
      | some (a, r) => some (c :: a, r)

/-- Fuelled worker for `findRefs`; the fuel is the length of the scanned
string (every step consumes at least one character, so the zero-fuel
branch is only reached on the empty string). -/
def findRefsF : Nat → GoStr → List ExprMatch
  | 0, _ => []
  | fuel + 1, s =>
    match s with
    | '$' :: '\x7b' :: rest =>
      let name := rest.takeWhile isNameChar
      match rest.dropWhile isNameChar with
      | '(' :: rest1 =>
        (match scanBal 0 ('(' :: rest1) with
        | none => []
        | some (args, rest2) =>
          match rest2 with
          | '\x7d' :: rest3 =>
            ⟨'$' :: '\x7b' :: (name ++ args ++ ['\x7d']), name, args⟩ ::
              findRefsF fuel rest3
          | _ :: rest3 => findRefsF fuel rest3
          | [] => [])
      | '\x7d' :: rest3 =>
        ⟨'$' :: '\x7b' :: (name ++ ['\x7d']), name, []⟩ :: findRefsF fuel rest3
      | _ :: rest3 => findRefsF fuel rest3
      | [] => []
    | _ :: rest => findRefsF fuel rest
    | [] => []

/-- `findExpressionReferences`: all well-formed reference occurrences,
left to right.  A reference whose closing brace is missing is skipped
(the scanner resumes one character past the offending position), and an
argument list whose parentheses never close ends the scan. -/
def findRefs (s : GoStr) : List ExprMatch :=
  findRefsF s.length s

/-- State-machine loop of `parseArguments`: split the argument text on
top-level commas, tracking parenthesis depth, bracket depth, single- and
double-quote state; a backslash copies the following character verbatim.
Each completed argument is `strings.TrimSpace`d. -/
def parseArgsLoop : GoStr → Int → Int → Bool → Bool → GoStr → List GoStr →
    List GoStr
  | [], _, _, _, _, current, acc =>
    if current.isEmpty then acc else acc ++ [trimSpaceGo current]
  | c :: rest, pd, bd, sq, dq, current, acc =>
    if c == '(' then
      parseArgsLoop rest (if !sq && !dq then pd + 1 else pd) bd sq dq
        (current ++ [c]) acc
    else if c == ')' then
      parseArgsLoop rest (if !sq && !dq then pd - 1 else pd) bd sq dq
        (current ++ [c]) acc
    else if c == '[' then
      parseArgsLoop rest pd (if !sq && !dq then bd + 1 else bd) sq dq
        (current ++ [c]) acc
    else if c == ']' then
      parseArgsLoop rest pd (if !sq && !dq then bd - 1 else bd) sq dq
        (current ++ [c]) acc
    else if c == '\'' then
      parseArgsLoop rest pd bd (if !dq then !sq else sq) dq
        (current ++ [c]) acc
    else if c == '"' then
      parseArgsLoop rest pd bd sq (if !sq then !dq else dq)
        (current ++ [c]) acc
    else if c == ',' then
      if pd = 0 ∧ bd = 0 ∧ !sq ∧ !dq then
        parseArgsLoop rest pd bd sq dq [] (acc ++ [trimSpaceGo current])
      else
        parseArgsLoop rest pd bd sq dq (current ++ [c]) acc
    else if c == '\\' then
      match rest with
      | d :: rest1 => parseArgsLoop rest1 pd bd sq dq (current ++ [c, d]) acc
      | [] => parseArgsLoop [] pd bd sq dq (current ++ [c]) acc
    else
      parseArgsLoop rest pd bd sq dq (current ++ [c]) acc

/-- `parseArguments`: extract the arguments from text of the form
`(arg1, arg2, ...)`.  (The Go function also returns an `error` that is
always `nil`; the corresponding wrapper branch in `expandExpression` is
dead code.) -/
def parseArguments (argsWithParens : GoStr) : List GoStr :=
  let argsStr := trimSpaceGo (trimSuffixGo [')'] (trimPrefixGo ['('] argsWithParens))
  if argsStr.isEmpty then [] else parseArgsLoop argsStr 0 0 false false [] []

/-- Whether the regular expression `\$(\d+)` matches, i.e. a `$`
immediately followed by a digit occurs. -/
def hasParam : GoStr → Bool
  | '$' :: c :: rest => if c.isDigit then true else hasParam (c :: rest)
  | _ :: rest => hasParam rest
  | [] => false

/-- Decimal rendering of a parameter index (`fmt.Sprintf "$%d"` without
the dollar). -/
def natStr (n : Nat) : GoStr := (Nat.repr n).data

/-- The replacement loop of `replaceParameters`: substitute `$0, $1, ...`
with the argument texts, in index order. -/
def replaceParamsLoop : GoStr → Nat → List GoStr → GoStr
  | result, _, [] => result
  | result, i, a :: rest =>
    replaceParamsLoop (replaceAll ('$' :: natStr i) a result) (i + 1) rest

/-- `replaceParameters`: substitute positional placeholders in a named
expression's body with the literal argument texts, failing when the body
uses placeholders but no arguments were given, or when placeholders
remain afterwards. -/
def replaceParameters (expr : GoStr) (args : List GoStr) : Except GoStr GoStr :=
  if hasParam expr ∧ args.isEmpty then
    .error (("expression requires parameters but none were provided").data)
  else
    let result := replaceParamsLoop expr 0 args
    if hasParam result then
      .error (("not enough arguments provided for parameters").data)
    else
      .ok result

/-- The error message `fmt.Errorf("undefined reference in expression: %s", s)`. -/
def undefinedRefMsg (s : GoStr) : GoStr :=
  ("undefined reference in expression: ").data ++ s

/-- The error message `fmt.Errorf("circular reference detected in expression: %s", s)`. -/
def circularMsg (s : GoStr) : GoStr :=
  ("circular reference detected in expression: ").data ++ s

/-- The pattern `strings.Contains(result, "$\x7b")` looks for. -/
def dollarBrace : GoStr := ['$', '\x7b']

/-- The inner `for _, match := range matches` loop of `expandExpression`:
look each occurrence up, substitute parameters when an argument list is
present, and replace the occurrence in the working string with the
expanded body wrapped in one parenthesis pair.  Returns the new working
string together with the `foundReplacement` flag. -/
def runMatches (exprs : List (GoStr × GoStr)) :
    List ExprMatch → GoStr → Bool → Except GoStr (GoStr × Bool)
  | [], result, found => .ok (result, found)
  | m :: rest, result, _ =>
    match List.lookup m.name exprs with
    | none => .error (undefinedRefMsg m.fullMatch)
    | some body =>
      let expanded :=
        if m.args.isEmpty then Except.ok body
        else
          match replaceParameters body (parseArguments m.args) with
          | .ok e => Except.ok e
          | .error e =>
            Except.error (("failed to replace parameters in ").data ++
              m.name ++ (": ").data ++ e)
      match expanded with
      | .error e => .error e
      | .ok ex =>
        runMatches exprs rest
          (replaceFirst m.fullMatch ('(' :: (ex ++ [')'])) result) true

/-- The scanning loop of `expandExpression`, with the remaining iteration
budget as fuel (`fuel = maxIterations - iteration`; the Go guard
`iteration < maxIterations` is exactly `fuel > 0`).  Returns the overall
outcome — including the post-loop circular-reference check — together
with the number of passes executed. -/
def expandLoopF (exprs : List (GoStr × GoStr)) (orig : GoStr) :
    Nat → GoStr → Except GoStr GoStr × Nat
  | 0, result =>
    (if containsSub dollarBrace result then .error (circularMsg orig)
     else .ok result, 0)
  | fuel + 1, result =>
    if containsSub dollarBrace result then
      match runMatches exprs (findRefs result) result false with
      | .error e => (.error e, 1)
      | .ok (newResult, found) =>
        if found = false then (.error (undefinedRefMsg orig), 1)
        else if newResult = result then (.error (circularMsg orig), 1)
        else
          let next := expandLoopF exprs orig fuel newResult
          (next.1, next.2 + 1)
    else
      (.ok result, 0)

/-- `expandExpression`: expand a single expression against the named
expression table, with an iteration budget of `len(expressions) + 1`
passes.  (A `nil` Go map behaves as the empty association list.) -/
def expandExpression (expr : GoStr) (exprs : List (GoStr × GoStr)) :
    Except GoStr GoStr :=
  (expandLoopF exprs expr (exprs.length + 1) expr).1

/-- Number of scanning passes `expandExpression` executes. -/
def expandPasses (expr : GoStr) (exprs : List (GoStr × GoStr)) : Nat :=
  (expandLoopF exprs expr (exprs.length + 1) expr).2

/-- The document's universal runtime shape (YAML scalars, sequences and
mappings; `null` also stands for Go's `nil` interface value, which is what
a missing map key yields and what YAML `null` unmarshals to). -/
inductive Value where
  | null
  | bool (b : Bool)
  | int (n : Int)
  | str (s : GoStr)
  | seq (l : List Value)
  | map (m : List (GoStr × Value))

/-- A single CEL validation rule (`models.Rule`). -/
structure Rule where
  expr : GoStr
  desc : GoStr
  severity : GoStr

/-- All CEL validation rules and named expressions (`models.ValidationRules`). -/
structure ValidationRules where
  rules : List Rule
  expressions : List (GoStr × GoStr)

/-- A validation failure (`models.ValidationError`). -/
structure ValidationError where
  description : GoStr
  expression : GoStr
  value : Value
  path : GoStr

/-- The outcome of validation (`models.ValidationResult`). -/
structure ValidationResult where
  errors : List ValidationError
  warnings : List ValidationError

/-- `ValidationResult.HasErrors`: `len(vr.Errors) > 0`. -/
def HasErrors (vr : ValidationResult) : Bool :=
  decide (0 < vr.errors.length)

/-- The constant `WarningSeverity = "warning"`. -/
def warningSeverity : GoStr := ("warning").data

/-- Outcome of handing one expression to the CEL environment: failure of
`env.Compile`, failure of `env.Program`, a runtime error from
`program.Eval`, or the evaluated value.  CEL itself is an external
dependency (`github.com/google/cel-go`); the evaluator is therefore
parameterized by an oracle `GoStr → CelOutcome` describing, for the one
document of the run, what CEL does with each expression. -/
inductive CelOutcome where
  | compileErr (msg : GoStr)
  | programErr (msg : GoStr)
  | evalErr (msg : GoStr)
  | val (v : Value)

/-- Shared cleanup inside `extractPath`: trim quotes, then keep the first
space-separated word. -/
def pathClean (rest : GoStr) : GoStr :=
  (splitGo [' '] (goTrim ['\'', '"'] rest)).headD []

/-- `extractPath`: extract a field path from a CEL runtime-error message
by searching the fixed substrings in order. -/
def extractPath (errMsg : GoStr) : GoStr :=
  match afterSub (("no such key: ").data) errMsg with
  | some rest => pathClean rest
  | none =>
    match afterSub (("undefined field '").data) errMsg with
    | some rest => pathClean rest
    | none =>
      match afterSub (("missing key ").data) errMsg with
      | some rest => pathClean rest
      | none => []

/-- Go map indexing `current[part]` on a document mapping: the stored
value, or `nil` (modelled as `Value.null`) when the key is absent. -/
def mapGet (m : List (GoStr × Value)) (k : GoStr) : Value :=
  (List.lookup k m).getD Value.null

/-- The path-walking loop of `extractValueFromValues`: walk the document
by successive path segments; upon the first segment whose value is not a
mapping, return that value and the path consumed so far (joined with
dots); on the last segment return its value and the full candidate path. -/
def walkValues (pathStr : GoStr) :
    List (GoStr × Value) → List GoStr → List GoStr → Value × GoStr
  | current, [last], _pre => (mapGet current last, pathStr)
  | current, part :: next :: restParts, pre =>
    match mapGet current part with
    | .map m => walkValues pathStr m (next :: restParts) (pre ++ [part])
    | v => (v, List.intercalate ['.'] (pre ++ [part]))
  | _current, [], _pre => (Value.null, pathStr)

/-- `extractValueFromValues`: textual heuristic locating the offending
value for a falsy rule — take the text after the first `values.` up to
the next space, strip surrounding parentheses, and walk the document
along the dotted path.  (`splitGo` never returns `[]`, so the `[]` branch
of `walkValues` is unreachable.) -/
def extractValueFromValues (values : List (GoStr × Value)) (expr : GoStr) :
    Value × GoStr :=
  match splitGo (("values.").data) expr with
  | _ :: p1 :: _ =>
    let path := goTrim ['(', ')'] ((splitGo [' '] p1).headD [])
    walkValues path values (splitGo ['.'] path) []
  | _ => (Value.null, [])

/-- `validateRules`: compile and evaluate every rule in order against the
document, collecting error and warning findings.  Compile and
program-construction failures always land in `errors`; runtime errors and
non-`true` evaluations are routed by the rule's declared severity. -/
def validateRules (cel : GoStr → CelOutcome) (values : List (GoStr × Value)) :
    List Rule → ValidationResult
  | [] => ⟨[], []⟩
  | rule :: rest =>
    let r := validateRules cel values rest
    match cel rule.expr with
    | .compileErr msg =>
      ⟨⟨("Invalid rule syntax in '").data ++ rule.desc ++ ("': ").data ++ msg,
        rule.expr, Value.null, []⟩ :: r.errors, r.warnings⟩
    | .programErr msg =>
      ⟨⟨("Failed to process rule '").data ++ rule.desc ++ ("': ").data ++ msg,
        rule.expr, Value.null, []⟩ :: r.errors, r.warnings⟩
    | .evalErr msg =>
      let ve : ValidationError := ⟨rule.desc, rule.expr, Value.null, extractPath msg⟩
      if rule.severity = warningSeverity then ⟨r.errors, ve :: r.warnings⟩
      else ⟨ve :: r.errors, r.warnings⟩
    | .val v =>
      match v with
      | .bool true => r
      | _ =>
        let vp := extractValueFromValues values rule.expr
        let ve : ValidationError := ⟨rule.desc, rule.expr, vp.1, vp.2⟩
        if rule.severity = warningSeverity then ⟨r.errors, ve :: r.warnings⟩
        else ⟨ve :: r.errors, r.warnings⟩

/-- The `for i, rule := range rules.Rules` loop of
`PrepareNamedExpressions`, as the list of rewritten rules. -/
def prepareRulesList (exprs : List (GoStr × GoStr)) :
    List Rule → Except GoStr (List Rule)
  | [] => .ok []
  | r :: rest =>
    match expandExpression r.expr exprs with
    | .error e =>
      .error (("failed to expand rule '").data ++ r.desc ++ ("': ").data ++ e)
    | .ok ex =>
      match prepareRulesList exprs rest with
      | .error e => .error e
      | .ok rs => .ok (⟨ex, r.desc, r.severity⟩ :: rs)

/-- `PrepareNamedExpressions`: expand every rule's expression in place.
The Go method mutates its argument; the model returns the post-state
(with a `nil` expression map behaving as the empty list). -/
def prepareNamedExpressions (rules : ValidationRules) :
    Except GoStr ValidationRules :=
  match prepareRulesList rules.expressions rules.rules with
  | .error e => .error e
  | .ok rs => .ok ⟨rs, rules.expressions⟩

/-- The core of `ValidateChart` after its external collaborators have
run: file loading/merging and CEL-environment construction happen outside
this core (the loaders return the merged document and rule set supplied
here, and the environment is the `cel` oracle).  An empty merged rule
sequence short-circuits to an empty result; otherwise named expressions
are expanded — any expansion failure aborting the run — and the rules are
evaluated. -/
def validateChart (cel : GoStr → CelOutcome) (values : List (GoStr × Value))
    (rules : ValidationRules) : Except GoStr ValidationResult :=
  if rules.rules.isEmpty then .ok ⟨[], []⟩
  else
    match prepareNamedExpressions rules with
    | .error e => .error e
    | .ok expanded => .ok (validateRules cel values expanded.rules)

/-- Modelled from the spec: the CEL evaluation outcome for the concrete
scenarios of the spec's testable properties.  CEL compilation/evaluation
lives in the external dependency `github.com/google/cel-go`, not in this
repository; the spec states that in those scenarios the rule compiles and
evaluates falsy (e.g. `has(values.service) && has(values.service.port)`
over a document whose `service` mapping has no `port` key), which this
oracle records for every expression of the run. -/
def celAlwaysFalse : GoStr → CelOutcome := fun _ => .val (Value.bool false)

example :
    expandExpression (("$\x7bvalidPort\x7d").data)
      [(("validPort").data, ("values.service.port <= 65535").data)] =
    .ok (("(values.service.port <= 65535)").data) := by decide

example :
    expandExpression (("$\x7ba\x7d").data) [(("a").data, ("$\x7ba\x7d").data)] =
    .error (circularMsg (("$\x7ba\x7d").data)) := by decide

example :
    expandExpression (("$\x7bunclosed").data)
      [(("unclosed").data, ("values.service.port <= 65535").data)] =
    .error (undefinedRefMsg (("$\x7bunclosed").data)) := by decide

example :
    expandExpression (("$\x7binRange(values.port, 1, 65535)\x7d").data)
      [(("inRange").data, ("$0 >= $1 && $0 <= $2").data)] =
    .ok (("(values.port >= 1 && values.port <= 65535)").data) := by decide

example :
    expandExpression (("$\x7bhasField()\x7d").data)
      [(("hasField").data, ("has($0)").data)] =
    .error (("failed to replace parameters in hasField: expression requires parameters but none were provided").data) := by
  decide


example :
    extractValueFromValues
      [(("service").data, Value.map [(("type").data, Value.str (("ClusterIP").data))])]
      (("has(values.service) && has(values.service.port)").data) =
    (Value.map [(("type").data, Value.str (("ClusterIP").data))], ("service").data) := by
  rfl

example :
    extractValueFromValues
      [(("service").data, Value.map [(("type").data, Value.str (("ClusterIP").data))])]
      (("has(values.service)&&has(values.service.port)").data) =
    (Value.null, ("service)&&has").data) := by
  rfl

example :
    extractValueFromValues
      [(("service").data,
        Value.map [(("type").data, Value.str (("ClusterIP").data)),
                   (("port").data, Value.int 70000)])]
      (("values.service.port <= 65535").data) =
    (Value.int 70000, ("service.port").data) := by
  rfl

theorem expandLoopF_passes_le (exprs : List (GoStr × GoStr)) (orig : GoStr) :
    ∀ fuel res, (expandLoopF exprs orig fuel res).2 ≤ fuel := by
  intro fuel
  induction fuel with
  | zero => intro res; simp [expandLoopF]
  | succ n ih =>
    intro res
    simp only [expandLoopF]
    split
    · cases hm : runMatches exprs (findRefs res) res false with
      | error e => simp
      | ok p =>
        obtain ⟨newResult, found⟩ := p
        simp only
        split
        · simp
        · split
          · simp
          · have := ih newResult
            simp only
            omega
    · simp

theorem expandLoopF_ok_no_ref (exprs : List (GoStr × GoStr)) (orig : GoStr) :
    ∀ fuel res r, (expandLoopF exprs orig fuel res).1 = .ok r →
      containsSub dollarBrace r = false := by
  intro fuel
  induction fuel with
  | zero =>
    intro res r h
    simp only [expandLoopF] at h
    by_cases hc : containsSub dollarBrace res = true
    · rw [if_pos hc] at h
      cases h
    · rw [if_neg hc] at h
      cases h
      simpa using hc
  | succ n ih =>
    intro res r h
    simp only [expandLoopF] at h
    by_cases hc : containsSub dollarBrace res = true
    · rw [if_pos hc] at h
      cases hm : runMatches exprs (findRefs res) res false with
      | error e => rw [hm] at h; cases h
      | ok p =>
        obtain ⟨newResult, found⟩ := p
        rw [hm] at h
        simp only at h
        by_cases hf : found = false
        · rw [if_pos hf] at h; cases h
        · rw [if_neg hf] at h
          by_cases he : newResult = res
          · rw [if_pos he] at h; cases h
          · rw [if_neg he] at h
            exact ih newResult r h
    · rw [if_neg hc] at h
      cases h
      simpa using hc

/-- C1: for every expression and named-expression table — in particular
for every expression whose macro reference graph is acyclic — the
scanning loop of `expandExpression` executes at most
`len(expressions) + 1` passes, and whenever an expression is returned
(the call succeeds) it contains no occurrence of the reference opener
`$\x7b`. -/
theorem expansion_within_budget_and_fully_expanded
    (expr : GoStr) (exprs : List (GoStr × GoStr)) :
    expandPasses expr exprs ≤ exprs.length + 1 ∧
    ∀ r, expandExpression expr exprs = .ok r →
      containsSub dollarBrace r = false :=
  ⟨expandLoopF_passes_le exprs expr (exprs.length + 1) expr,
   fun r h => expandLoopF_ok_no_ref exprs expr (exprs.length + 1) expr r h⟩

theorem expansion_within_budget_and_fully_expanded_witness :
    expandPasses (("$\x7bm\x7d").data) [(("m").data, ("x").data)] ≤ 2 ∧
    containsSub dollarBrace (("(x)").data) = false :=
  ⟨(expansion_within_budget_and_fully_expanded (("$\x7bm\x7d").data)
      [(("m").data, ("x").data)]).1,
   (expansion_within_budget_and_fully_expanded (("$\x7bm\x7d").data)
      [(("m").data, ("x").data)]).2 (("(x)").data) (by decide)⟩

/-- C2: an expansion failure is fatal to the whole run — `ValidateChart`
propagates the error and produces no `ValidationResult` — whereas a
compile failure of a single rule only prepends one error finding for that
rule and leaves the outcome of the remaining rules untouched. -/
theorem expansion_failure_fatal_compile_failure_per_rule :
    (∀ (cel : GoStr → CelOutcome) (values : List (GoStr × Value))
       (rules : ValidationRules) (e : GoStr),
       prepareNamedExpressions rules = .error e →
       validateChart cel values rules = .error e) ∧
    (∀ (cel : GoStr → CelOutcome) (values : List (GoStr × Value))
       (rule : Rule) (rest : List Rule) (msg : GoStr),
       cel rule.expr = CelOutcome.compileErr msg →
       validateRules cel values (rule :: rest) =
         ⟨⟨("Invalid rule syntax in '").data ++ rule.desc ++ ("': ").data ++ msg,
           rule.expr, Value.null, []⟩ :: (validateRules cel values rest).errors,
          (validateRules cel values rest).warnings⟩) := by
  constructor
  · intro cel values rules e h
    obtain ⟨rs, ex⟩ := rules
    cases rs with
    | nil => simp [prepareNamedExpressions, prepareRulesList] at h
    | cons r rest => simp [validateChart, h]
  · intro cel values rule rest msg h
    simp [validateRules, h]

theorem expansion_failure_fatal_compile_failure_per_rule_witness :
    validateChart (fun _ => CelOutcome.val (Value.bool true)) []
      ⟨[⟨("$\x7bx\x7d").data, ("d").data, []⟩], []⟩ =
      .error (("failed to expand rule 'd': undefined reference in expression: $\x7bx\x7d").data) ∧
    validateRules (fun _ => CelOutcome.compileErr (("boom").data)) []
      [⟨("true").data, ("d").data, ("warning").data⟩] =
      ⟨[⟨("Invalid rule syntax in 'd': boom").data, ("true").data, Value.null, []⟩], []⟩ :=
  ⟨expansion_failure_fatal_compile_failure_per_rule.1
     (fun _ => CelOutcome.val (Value.bool true)) []
     ⟨[⟨("$\x7bx\x7d").data, ("d").data, []⟩], []⟩ _ rfl,
   expansion_failure_fatal_compile_failure_per_rule.2
     (fun _ => CelOutcome.compileErr (("boom").data)) []
     ⟨("true").data, ("d").data, ("warning").data⟩ [] (("boom").data) rfl⟩

/-- C3: for every rule whose expression fails to compile — whatever its
declared severity, including `warning` — the finding lands in the errors
collection, with description
`Invalid rule syntax in '<rule description>': <compiler message>`,
and the warnings collection is untouched. -/
theorem compile_error_always_lands_in_errors
    (cel : GoStr → CelOutcome) (values : List (GoStr × Value))
    (rule : Rule) (rest : List Rule) (msg : GoStr)
    (h : cel rule.expr = CelOutcome.compileErr msg) :
    (validateRules cel values (rule :: rest)).errors =
      ⟨("Invalid rule syntax in '").data ++ rule.desc ++ ("': ").data ++ msg,
        rule.expr, Value.null, []⟩ :: (validateRules cel values rest).errors ∧
    (validateRules cel values (rule :: rest)).warnings =
      (validateRules cel values rest).warnings := by
  simp [validateRules, h]

theorem compile_error_always_lands_in_errors_witness :
    (validateRules (fun _ => CelOutcome.compileErr (("msg").data)) []
      [⟨("x ==").data, ("d").data, ("warning").data⟩]).errors =
      [⟨("Invalid rule syntax in 'd': msg").data, ("x ==").data, Value.null, []⟩] ∧
    (validateRules (fun _ => CelOutcome.compileErr (("msg").data)) []
      [⟨("x ==").data, ("d").data, ("warning").data⟩]).warnings = [] :=
  compile_error_always_lands_in_errors
    (fun _ => CelOutcome.compileErr (("msg").data)) []
    ⟨("x ==").data, ("d").data, ("warning").data⟩ [] (("msg").data) rfl

/-- C4: a rule that compiles but raises a runtime error or evaluates to
anything other than `true` yields a finding routed to `warnings` exactly
when the declared severity is `warning`, and to `errors` otherwise (an
unset severity `[]` is not `warning`, so it defaults to errors); and
`HasErrors` holds exactly when the errors collection is non-empty. -/
theorem severity_partition_and_hasErrors :
    (∀ (cel : GoStr → CelOutcome) (values : List (GoStr × Value))
       (rule : Rule) (rest : List Rule) (msg : GoStr),
       cel rule.expr = CelOutcome.evalErr msg →
       validateRules cel values (rule :: rest) =
         if rule.severity = warningSeverity then
           ⟨(validateRules cel values rest).errors,
            ⟨rule.desc, rule.expr, Value.null, extractPath msg⟩ ::
              (validateRules cel values rest).warnings⟩
         else
           ⟨⟨rule.desc, rule.expr, Value.null, extractPath msg⟩ ::
              (validateRules cel values rest).errors,
            (validateRules cel values rest).warnings⟩) ∧
    (∀ (cel : GoStr → CelOutcome) (values : List (GoStr × Value))
       (rule : Rule) (rest : List Rule) (v : Value),
       cel rule.expr = CelOutcome.val v → v ≠ Value.bool true →
       validateRules cel values (rule :: rest) =
         if rule.severity = warningSeverity then
           ⟨(validateRules cel values rest).errors,
            ⟨rule.desc, rule.expr, (extractValueFromValues values rule.expr).1,
              (extractValueFromValues values rule.expr).2⟩ ::
              (validateRules cel values rest).warnings⟩
         else
           ⟨⟨rule.desc, rule.expr, (extractValueFromValues values rule.expr).1,
              (extractValueFromValues values rule.expr).2⟩ ::
              (validateRules cel values rest).errors,
            (validateRules cel values rest).warnings⟩) ∧
    (∀ res : ValidationResult, HasErrors res = true ↔ res.errors ≠ []) := by
  refine ⟨?_, ?_, ?_⟩
  · intro cel values rule rest msg h
    simp only [validateRules, h]
  · intro cel values rule rest v h hv
    simp only [validateRules, h]
  · intro res
    simp [HasErrors, List.length_pos]

theorem severity_partition_and_hasErrors_witness :
    validateRules (fun _ => CelOutcome.val (Value.bool false)) []
      [⟨("values.x").data, ("d").data, ("warning").data⟩] =
      ⟨[], [⟨("d").data, ("values.x").data, Value.null, ("x").data⟩]⟩ ∧
    HasErrors ⟨[], [⟨("d").data, ("values.x").data, Value.null, ("x").data⟩]⟩ =
      false :=
  ⟨severity_partition_and_hasErrors.2.1
     (fun _ => CelOutcome.val (Value.bool false)) []
     ⟨("values.x").data, ("d").data, ("warning").data⟩ [] (Value.bool false)
     rfl (by simp),
   rfl⟩

/-- C10: an empty merged rule sequence makes `validateChart` return the
empty result — with `HasErrors` false — for every CEL oracle and every
named-expression table, including tables whose entries are undefined or
cyclic, since neither expansion nor compilation is reached. -/
theorem empty_rules_short_circuit (cel : GoStr → CelOutcome)
    (values : List (GoStr × Value)) (exprs : List (GoStr × GoStr)) :
    validateChart cel values ⟨[], exprs⟩ = .ok ⟨[], []⟩ ∧
    HasErrors ⟨[], []⟩ = false := by
  exact ⟨by simp [validateChart], rfl⟩

example :
    validateRules (fun _ => CelOutcome.val (Value.bool true)) []
      [⟨("values.x").data, ("d").data, []⟩] = ⟨[], []⟩ := rfl

/-- C5 counterexample: the expression consisting of a bare `$\x7b` still
contains the reference opener, a full scanning pass finds no well-formed
reference (so no replacement happens), and expansion fails with the
undefined-reference error naming the original expression — not with the
circular-reference error the claim demands. -/
theorem no_replacement_pass_counterexample :
    containsSub dollarBrace (("$\x7b").data) = true ∧
    findRefs (("$\x7b").data) = [] ∧
    expandExpression (("$\x7b").data) [] =
      .error (undefinedRefMsg (("$\x7b").data)) ∧
    undefinedRefMsg (("$\x7b").data) ≠ circularMsg (("$\x7b").data) := by
  refine ⟨by decide, by decide, by decide, by decide⟩

/-- C5 amended: a full scanning pass that finds no well-formed replaceable
reference while `$\x7b` is still present makes expansion fail with an
UndefinedReference error naming the original top-level expression
(`undefined reference in expression: <original>`); the CircularReference
error arises only from the other non-progress conditions (a pass that
rewrites the expression to itself, or an exhausted iteration budget). -/
theorem no_replacement_pass_yields_undefined_reference
    (e : GoStr) (exprs : List (GoStr × GoStr))
    (hc : containsSub dollarBrace e = true) (hm : findRefs e = []) :
    expandExpression e exprs = .error (undefinedRefMsg e) := by
  unfold expandExpression
  simp [expandLoopF, hc, hm, runMatches]

theorem no_replacement_pass_yields_undefined_reference_witness :
    containsSub dollarBrace (("a && $\x7b !").data) = true ∧
    findRefs (("a && $\x7b !").data) = [] ∧
    expandExpression (("a && $\x7b !").data) [(("m").data, ("x").data)] =
      .error (undefinedRefMsg (("a && $\x7b !").data)) :=
  ⟨by decide, by decide,
   no_replacement_pass_yields_undefined_reference (("a && $\x7b !").data)
     [(("m").data, ("x").data)] (by decide) (by decide)⟩

/-- C6 counterexample: a bare reference (no argument list at all — zero
arguments supplied) to a macro whose body uses positional placeholders
expands without any error, leaving the placeholder in the output, instead
of failing with the ParameterArityError the claim demands.  (The
repository's own test expects exactly this output.) -/
theorem bare_reference_no_arity_error_counterexample :
    expandExpression (("$\x7bneedsParam\x7d").data)
      [(("needsParam").data, ("has($0)").data)] =
      .ok (("(has($0))").data) := by
  decide

/-- C6 amended: the ParameterArityError
`expression requires parameters but none were provided` (wrapped as
`failed to replace parameters in <name>: ...`) arises when the reference
supplies an explicit argument list that parses to zero arguments
(e.g. `$\x7bf()\x7d`), the macro body using placeholders; a bare reference
`$\x7bf\x7d` instead substitutes the body unchanged. -/
theorem empty_argument_list_arity_error :
    (∀ (m : ExprMatch) (rest : List ExprMatch)
       (exprs : List (GoStr × GoStr)) (result : GoStr) (found : Bool)
       (body : GoStr),
       List.lookup m.name exprs = some body →
       m.args ≠ [] →
       parseArguments m.args = [] →
       hasParam body = true →
       runMatches exprs (m :: rest) result found =
         .error (("failed to replace parameters in ").data ++ m.name ++
           (": ").data ++
           ("expression requires parameters but none were provided").data)) ∧
    expandExpression (("$\x7bf()\x7d").data) [(("f").data, ("$0 > 0").data)] =
      .error (("failed to replace parameters in f: expression requires parameters but none were provided").data) := by
  constructor
  · intro m rest exprs result found body hlk hargs hparse hp
    have hne : m.args.isEmpty = false := by
      cases hm : m.args with
      | nil => exact absurd hm hargs
      | cons a as => rfl
    simp [runMatches, hlk, hne, hparse, replaceParameters, hp]
  · decide

theorem empty_argument_list_arity_error_witness :
    List.lookup (("f").data) [(("f").data, ("$0 > 0").data)] =
      some (("$0 > 0").data) ∧
    parseArguments (("()").data) = [] ∧
    hasParam (("$0 > 0").data) = true ∧
    runMatches [(("f").data, ("$0 > 0").data)]
      [⟨("$\x7bf()\x7d").data, ("f").data, ("()").data⟩]
      (("$\x7bf()\x7d").data) false =
      .error (("failed to replace parameters in ").data ++ ("f").data ++
        (": ").data ++
        ("expression requires parameters but none were provided").data) :=
  ⟨by decide, by decide, by decide,
   empty_argument_list_arity_error.1
     ⟨("$\x7bf()\x7d").data, ("f").data, ("()").data⟩ []
     [(("f").data, ("$0 > 0").data)] (("$\x7bf()\x7d").data) false
     (("$0 > 0").data) (by decide) (by decide) (by decide) (by decide)⟩

/-- C9 counterexample: `PrepareNamedExpressions` rewrites each rule's
expression text in place (modelled as the returned post-state): after a
successful run the rule that read `$\x7bm\x7d` reads `(x)`, so the rule
set is not unchanged. -/
theorem prepare_rewrites_rule_expressions_counterexample :
    prepareNamedExpressions
      ⟨[⟨("$\x7bm\x7d").data, ("d").data, []⟩], [(("m").data, ("x").data)]⟩ =
      .ok ⟨[⟨("(x)").data, ("d").data, []⟩], [(("m").data, ("x").data)]⟩ ∧
    (("(x)").data : GoStr) ≠ ("$\x7bm\x7d").data := by
  exact ⟨rfl, by decide⟩

theorem prepareRulesList_preserves (exprs : List (GoStr × GoStr)) :
    ∀ (l l' : List Rule), prepareRulesList exprs l = .ok l' →
      List.Forall₂ (fun r r' : Rule =>
        r'.desc = r.desc ∧ r'.severity = r.severity ∧
        expandExpression r.expr exprs = .ok r'.expr) l l' := by
  intro l
  induction l with
  | nil =>
    intro l' h
    simp only [prepareRulesList] at h
    cases h
    exact List.Forall₂.nil
  | cons r rest ih =>
    intro l' h
    simp only [prepareRulesList] at h
    cases he : expandExpression r.expr exprs with
    | error e => rw [he] at h; cases h
    | ok ex =>
      rw [he] at h
      cases hrest : prepareRulesList exprs rest with
      | error e => rw [hrest] at h; cases h
      | ok rs =>
        rw [hrest] at h
        cases h
        exact List.Forall₂.cons ⟨rfl, rfl, he⟩ (ih rs hrest)

/-- C9 amended: the core treats the document, the macro table, and each
rule's description and severity as read-only — after a successful
`PrepareNamedExpressions` the macro table is unchanged and the rules
correspond one-to-one with the originals, same description and severity —
but each rule's expression text is overwritten in place with its expanded
form (itself a pure function of the original expression and the macro
table). -/
theorem prepare_preserves_all_but_expression_text
    (rules rules' : ValidationRules)
    (h : prepareNamedExpressions rules = .ok rules') :
    rules'.expressions = rules.expressions ∧
    List.Forall₂ (fun r r' : Rule =>
      r'.desc = r.desc ∧ r'.severity = r.severity ∧
      expandExpression r.expr rules.expressions = .ok r'.expr)
      rules.rules rules'.rules := by
  obtain ⟨rs, ex⟩ := rules
  simp only [prepareNamedExpressions] at h
  cases hp : prepareRulesList ex rs with
  | error e => rw [hp] at h; cases h
  | ok rsl =>
    rw [hp] at h
    cases h
    exact ⟨rfl, prepareRulesList_preserves ex rs rsl hp⟩

theorem prepare_preserves_all_but_expression_text_witness :
    prepareNamedExpressions
      ⟨[⟨("$\x7bm\x7d").data, ("d").data, ("warning").data⟩],
        [(("m").data, ("x").data)]⟩ =
      .ok ⟨[⟨("(x)").data, ("d").data, ("warning").data⟩],
        [(("m").data, ("x").data)]⟩ ∧
    ([(("m").data, ("x").data)] : List (GoStr × GoStr)) =
      [(("m").data, ("x").data)] ∧
    List.Forall₂ (fun r r' : Rule =>
      r'.desc = r.desc ∧ r'.severity = r.severity ∧
      expandExpression r.expr [(("m").data, ("x").data)] = .ok r'.expr)
      [⟨("$\x7bm\x7d").data, ("d").data, ("warning").data⟩]
      [⟨("(x)").data, ("d").data, ("warning").data⟩] :=
  ⟨rfl, rfl,
   (prepare_preserves_all_but_expression_text
     ⟨[⟨("$\x7bm\x7d").data, ("d").data, ("warning").data⟩],
       [(("m").data, ("x").data)]⟩
     ⟨[⟨("(x)").data, ("d").data, ("warning").data⟩],
       [(("m").data, ("x").data)]⟩ rfl).2⟩

/-- C7 counterexample: with the claim's space-free expression
`has(values.service)&&has(values.service.port)`, the falsy-result
heuristic takes the text after the first `values.` up to the next space —
which, absent spaces, is `service)&&has(` — so the single error finding
carries path `service)&&has` and a nil value, not path `service` with the
service mapping. -/
theorem service_port_finding_counterexample :
    validateRules celAlwaysFalse
      [(("service").data, Value.map [(("type").data, Value.str (("ClusterIP").data))])]
      [⟨("has(values.service)&&has(values.service.port)").data,
        ("service port is required").data, []⟩] =
      ⟨[⟨("service port is required").data,
          ("has(values.service)&&has(values.service.port)").data,
          Value.null, ("service)&&has").data⟩], []⟩ ∧
    (("service)&&has").data : GoStr) ≠ ("service").data ∧
    Value.null ≠ Value.map [(("type").data, Value.str (("ClusterIP").data))] := by
  refine ⟨rfl, by decide, fun h => Value.noConfusion h⟩

/-- C7 amended: with the rule expression written as in the repository's
tests — `has(values.service) && has(values.service.port)`, spaces around
`&&` — validating the document `{service: {type: "ClusterIP"}}` with the
single Error-severity rule described `service port is required` produces
exactly one error finding (and no warnings) whose path is `service` and
whose value is the mapping `{type: "ClusterIP"}`. -/
theorem service_port_finding_amended :
    validateRules celAlwaysFalse
      [(("service").data, Value.map [(("type").data, Value.str (("ClusterIP").data))])]
      [⟨("has(values.service) && has(values.service.port)").data,
        ("service port is required").data, []⟩] =
      ⟨[⟨("service port is required").data,
          ("has(values.service) && has(values.service.port)").data,
          Value.map [(("type").data, Value.str (("ClusterIP").data))],
          ("service").data⟩], []⟩ := by
  rfl

theorem isPrefixOf_self (l : GoStr) : l.isPrefixOf l = true := by
  induction l with
  | nil => rfl
  | cons c rest ih => simp [List.isPrefixOf, ih]

theorem replaceFirst_self (l new : GoStr) : replaceFirst l new l = new := by
  cases l with
  | nil => simp [replaceFirst]
  | cons c rest =>
    simp [replaceFirst, isPrefixOf_self, List.drop_length]

theorem hasParam_cons (c : Char) (t : GoStr) :
    hasParam (c :: t) =
      ((c == '$' && (t.head?.map Char.isDigit).getD false) || hasParam t) := by
  cases t with
  | nil => simp [hasParam]
  | cons d rest =>
    by_cases hc : c = '$'
    · subst hc
      by_cases hd : d.isDigit = true
      · simp [hasParam, hd]
      · simp [hasParam, hd, Bool.eq_false_iff.mpr hd]
    · simp [hasParam, hc]

theorem hasParam_append (a s : GoStr)
    (hd : (s.head?.map Char.isDigit).getD false = false) :
    hasParam (a ++ s) = (hasParam a || hasParam s) := by
  induction a with
  | nil => simp [hasParam]
  | cons c a2 ih =>
    rw [List.cons_append, hasParam_cons, ih, hasParam_cons c a2]
    cases a2 with
    | nil => simp [hd]
    | cons e a3 => simp [Bool.or_assoc]

theorem containsDB_cons (c : Char) (t : GoStr) :
    containsSub dollarBrace (c :: t) =
      ((c == '$' && (t.head?.map (fun d => d == '\x7b')).getD false) ||
        containsSub dollarBrace t) := by
  cases t with
  | nil => simp [containsSub, dollarBrace, List.isPrefixOf]
  | cons d rest =>
    simp only [containsSub, dollarBrace, List.isPrefixOf, List.head?,
      Option.map_some, Option.getD_some, Bool.and_true]
    by_cases hc : ('$' : Char) = c
    · subst hc
      simp [BEq.comm]
    · have h1 : (('$' : Char) == c) = false := by
        rw [beq_eq_false_iff_ne]
        exact hc
      have h2 : (c == ('$' : Char)) = false := by
        rw [beq_eq_false_iff_ne]
        exact Ne.symm hc
      simp [h1, h2]

theorem containsDB_append (a s : GoStr)
    (hd : (s.head?.map (fun d => d == '\x7b')).getD false = false) :
    containsSub dollarBrace (a ++ s) =
      (containsSub dollarBrace a || containsSub dollarBrace s) := by
  induction a with
  | nil => simp [containsSub, dollarBrace]
  | cons c a2 ih =>
    rw [List.cons_append, containsDB_cons, ih, containsDB_cons c a2]
    cases a2 with
    | nil => simp [hd]
    | cons e a3 => simp [Bool.or_assoc]

theorem expandLoopF_step (exprs : List (GoStr × GoStr)) (orig : GoStr)
    (fuel : Nat) (result newResult : GoStr)
    (hc : containsSub dollarBrace result = true)
    (hrm : runMatches exprs (findRefs result) result false =
      .ok (newResult, true))
    (hne : newResult ≠ result) :
    expandLoopF exprs orig (fuel + 1) result =
      ((expandLoopF exprs orig fuel newResult).1,
       (expandLoopF exprs orig fuel newResult).2 + 1) := by
  simp [expandLoopF, hc, hrm, hne]

theorem expandLoopF_done (exprs : List (GoStr × GoStr)) (orig : GoStr)
    (fuel : Nat) (result : GoStr)
    (hc : containsSub dollarBrace result = false) :
    expandLoopF exprs orig fuel result = (.ok result, 0) := by
  cases fuel <;> simp [expandLoopF, hc]

/-- C8 counterexample: the literal argument text `$0` makes expansion of
`$\x7bf($0)\x7d` against the macro `f := "$0 > 0"` fail with a
ParameterArityError (the substituted body still matches the placeholder
pattern), instead of returning `($0 > 0)` as the claim's universal
quantification over argument texts demands. -/
theorem literal_argument_counterexample :
    expandExpression (("$\x7bf($0)\x7d").data)
      [(("f").data, ("$0 > 0").data)] =
      .error (("failed to replace parameters in f: not enough arguments provided for parameters").data) := by
  decide

/-- C8 amended: expanding `$\x7bf(a)\x7d` against the macro table
`\x7bf: "$0 > 0"\x7d` returns exactly `(a > 0)` with `a` substituted
textually, and no error, for every literal argument text `a` that the
reference scanner and the argument parser process as one argument — the
scanner finds the single reference (so `a` has balanced parentheses) and
the parser returns `a` itself (so `a` has no top-level comma and no
surrounding white space) — and that contains no positional placeholder
`$<digit>` and no reference opener `$\x7b`.  (Arguments that are
themselves nested calls, such as `size(values.items)`, satisfy these
conditions.) -/
theorem single_argument_expansion (a : GoStr)
    (hscan : findRefs ('$' :: '\x7b' :: 'f' :: '(' :: (a ++ [')', '\x7d'])) =
      [⟨'$' :: '\x7b' :: 'f' :: '(' :: (a ++ [')', '\x7d']),
        [('f' : Char)], '(' :: (a ++ [')'])⟩])
    (hparse : parseArguments ('(' :: (a ++ [')'])) = [a])
    (hnop : hasParam a = false)
    (hnoref : containsSub dollarBrace a = false) :
    expandExpression ('$' :: '\x7b' :: 'f' :: '(' :: (a ++ [')', '\x7d']))
      [([('f' : Char)], ("$0 > 0").data)] =
      .ok ('(' :: (a ++ (" > 0)").data)) := by
  have hnp : hasParam (a ++ (" > 0").data) = false := by
    rw [hasParam_append a ((" > 0").data) (by decide), hnop]
    decide
  have hbody : replaceParameters (("$0 > 0").data) [a] =
      .ok (a ++ (" > 0").data) := by
    have hloop : replaceParamsLoop (("$0 > 0").data) 0 [a] =
        a ++ (" > 0").data := by
      simp only [replaceParamsLoop]
      simp +decide [replaceAll, replAllF, natStr, Nat.repr]
    simp only [replaceParameters, hloop]
    rw [if_neg (by simp), if_neg (by simp [hnp])]
  have hrm : runMatches [([('f' : Char)], ("$0 > 0").data)]
      (findRefs ('$' :: '\x7b' :: 'f' :: '(' :: (a ++ [')', '\x7d'])))
      ('$' :: '\x7b' :: 'f' :: '(' :: (a ++ [')', '\x7d'])) false =
      .ok ('(' :: (a ++ (" > 0)").data), true) := by
    rw [hscan]
    simp [runMatches, List.lookup, hparse, hbody, replaceFirst_self,
      List.append_assoc]
  have hc1 : containsSub dollarBrace
      ('$' :: '\x7b' :: 'f' :: '(' :: (a ++ [')', '\x7d'])) = true := by
    simp [containsSub, dollarBrace, List.isPrefixOf]
  have hnc : containsSub dollarBrace ('(' :: (a ++ (" > 0)").data)) = false := by
    rw [containsDB_cons]
    rw [show (('(' : Char) == '$') = false from rfl, Bool.false_and,
      Bool.false_or]
    rw [containsDB_append a ((" > 0)").data) (by decide), hnoref]
    decide
  have hne : ('(' :: (a ++ (" > 0)").data)) ≠
      ('$' :: '\x7b' :: 'f' :: '(' :: (a ++ [')', '\x7d'])) := by
    intro h
    exact absurd (List.head_eq_of_cons_eq h) (by decide)
  unfold expandExpression
  rw [show ([([('f' : Char)], ("$0 > 0").data)].length + 1) = 1 + 1 from rfl]
  rw [expandLoopF_step _ _ 1 _ _ hc1 hrm hne]
  rw [expandLoopF_done _ _ 1 _ hnc]

theorem single_argument_expansion_witness :
    findRefs (("$\x7bf(size(values.items))\x7d").data) =
      [⟨("$\x7bf(size(values.items))\x7d").data, ("f").data,
        ("(size(values.items))").data⟩] ∧
    parseArguments (("(size(values.items))").data) =
      [("size(values.items)").data] ∧
    hasParam (("size(values.items)").data) = false ∧
    containsSub dollarBrace (("size(values.items)").data) = false ∧
    expandExpression (("$\x7bf(size(values.items))\x7d").data)
      [(("f").data, ("$0 > 0").data)] =
      .ok (("(size(values.items) > 0)").data) :=
  ⟨by decide, by decide, by decide, by decide,
   single_argument_expansion (("size(values.items)").data)
     (by decide) (by decide) (by decide) (by decide)⟩

end HelmCel
